import Mathlib

/-!
Verification development for the fast_vec vector library.

The library (src/vec2.rs, src/vec3.rs) implements 2- and 3-dimensional
double-precision vectors on packed SIMD registers (f64x2 / f64x4, the latter
with a fourth padding lane).  All operations are lane-wise IEEE-754 binary64
arithmetic, so the embedding models binary64 exactly:

* a finite double is a sign bit together with an integer magnitude counted in
  units of 2 ^ (-1074) (the smallest subnormal); every binary64 value has a
  unique such integer, and the encoding is closed under exact addition;
* `roundFrac a b` rounds the real number (a / b) (in the same units) to the
  nearest representable double with ties to even, overflowing to infinity
  above the largest finite double `KMAX` units;
* NaN is collapsed to a single constructor (the library never observes
  payloads or NaN signs), infinities keep their sign.

All functions are structural recursions over `Nat`, so every concrete value
can be evaluated by the kernel (`decide`).
-/

set_option exponentiation.threshold 6000

set_option maxRecDepth 16000

namespace FastVec

/-- Power of two computed by a shift, so that the kernel can evaluate it in a
single step (Nat.pow reduction is linear in the exponent, Nat.shiftLeft is
not). -/
def pow2 (k : Nat) : Nat := 1 <<< k

/-- Single step of the binary descent computing a floor logarithm: raise the
accumulated exponent by p if the value still fits. -/
def log2Step (n acc p : Nat) : Nat :=
  if pow2 (acc + p) ≤ n then acc + p else acc

/-- Floor of the base-2 logarithm of a natural number, by binary descent over
the exponent (13 shallow steps, correct for 0 < n < 2 ^ 8192). -/
def natLog2 (n : Nat) : Nat :=
  List.foldl (log2Step n) 0 [4096, 2048, 1024, 512, 256, 128, 64, 32, 16, 8, 4, 2, 1]

/-- Floor of the base-2 logarithm of the quotient a / b, for b ≤ a.
The candidate from `natLog2` can be off by one, so it is corrected by direct
comparison. -/
def ilog2q (a b : Nat) : Nat :=
  let g := natLog2 a - natLog2 b
  if pow2 (g + 1) * b ≤ a then g + 1 else if pow2 g * b ≤ a then g else g - 1

/-- Newton iteration step for the integer square root, with explicit fuel.
The guess decreases strictly until it reaches the floor of the root. -/
def isqrtAux : Nat → Nat → Nat → Nat
  | 0, _, g => g
  | f + 1, n, g =>
    let g2 := (g + n / g) / 2
    if g2 < g then isqrtAux f n g2 else g

/-- Floor of the square root of a natural number: Newton iteration started
just above the root (quadratic convergence, so shallow fuel suffices). -/
def isqrtN (n : Nat) : Nat :=
  if n ≤ 1 then n else isqrtAux 100 n (pow2 (natLog2 n / 2 + 1))

/-- Magnitude of the largest finite binary64 value, in units of 2 ^ (-1074):
(2 ^ 53 - 1) * 2 ^ 971 * 2 ^ 1074. -/
def KMAX : Nat := (pow2 53 - 1) * pow2 2045

/-- Model of an IEEE-754 binary64 value.  `fin neg k` denotes the finite
number with sign `neg` and magnitude `k` units of 2 ^ (-1074); `inf neg` is a
signed infinity; `nan` is the single (canonical) NaN. -/
inductive F64 : Type where
  | nan : F64
  | inf : Bool → F64
  | fin : Bool → Nat → F64
deriving DecidableEq

/-- Positive zero. -/
def F64.zero : F64 := .fin false 0

/-- Negative zero. -/
def F64.negZero : F64 := .fin true 0

/-- The double 1.0, that is 2 ^ 1074 units of 2 ^ (-1074). -/
def F64.one : F64 := .fin false (pow2 1074)

/-- The double 2.0. -/
def F64.two : F64 := .fin false (pow2 1075)

/-- Scale of the rounding grid for the value a / b: results below 2 ^ 53 are
rounded to integers (covering the subnormal range automatically), larger
results to multiples of 2 ^ (floor log2 (a / b) - 52). -/
def roundShift (a b : Nat) : Nat :=
  if a < pow2 53 * b then 0 else ilog2q a b - 52

/-- Round-to-nearest, ties to even, of a / d given the floor m0 = a / d. -/
def roundM (a d m0 : Nat) : Nat :=
  let r2 := 2 * (a - m0 * d)
  if r2 < d then m0
  else if d < r2 then m0 + 1
  else if m0 % 2 = 0 then m0 else m0 + 1

/-- Package a rounded magnitude, overflowing to infinity beyond `KMAX`. -/
def roundFin (k : Nat) : F64 := if KMAX < k then .inf false else .fin false k

/-- Round the nonnegative real number a / b (in units of 2 ^ (-1074)) to the
nearest representable binary64 magnitude, ties to even, overflowing to
positive infinity beyond `KMAX`.  A representable magnitude is a `k` of the
form m * 2 ^ s with m < 2 ^ 53.  Requires 0 < b. -/
def roundFrac (a b : Nat) : F64 :=
  let s := roundShift a b
  let d := b * pow2 s
  roundFin (roundM a d (a / d) * pow2 s)

/-- Arithmetic negation: flips the sign of every value (NaN stays NaN since
payloads are not modelled). -/
def F64.neg : F64 → F64
  | .nan => .nan
  | .inf s => .inf (!s)
  | .fin s k => .fin (!s) k

/-- Impose a sign on a sign-less rounding result. -/
def signApply (s : Bool) : F64 → F64
  | .nan => .nan
  | .inf _ => .inf s
  | .fin _ k => .fin s k

/-- IEEE-754 addition.  An exact zero sum is +0 under round-to-nearest unless
both addends are -0. -/
def F64.add : F64 → F64 → F64
  | .nan, _ => .nan
  | _, .nan => .nan
  | .inf s, .inf t => if s = t then .inf s else .nan
  | .inf s, .fin _ _ => .inf s
  | .fin _ _, .inf t => .inf t
  | .fin s a, .fin t b =>
    let v : Int := (if s then -(a : Int) else (a : Int)) + (if t then -(b : Int) else (b : Int))
    if v = 0 then .fin (s && t) 0
    else if v < 0 then (roundFrac v.natAbs 1).neg
    else roundFrac v.natAbs 1

/-- IEEE-754 subtraction, which coincides with adding the negation. -/
def F64.sub (x y : F64) : F64 := x.add y.neg

/-- IEEE-754 multiplication.  The product of the magnitudes is a * b units of
2 ^ (-2148), hence the denominator 2 ^ 1074. -/
def F64.mul : F64 → F64 → F64
  | .nan, _ => .nan
  | _, .nan => .nan
  | .inf s, .inf t => .inf (xor s t)
  | .inf s, .fin t b => if b = 0 then .nan else .inf (xor s t)
  | .fin s a, .inf t => if a = 0 then .nan else .inf (xor s t)
  | .fin s a, .fin t b =>
    if a = 0 || b = 0 then .fin (xor s t) 0
    else signApply (xor s t) (roundFrac (a * b) (pow2 1074))

/-- IEEE-754 division.  0/0 and inf/inf give NaN, x/0 gives a signed infinity
for x nonzero, x/inf gives a signed zero. -/
def F64.div : F64 → F64 → F64
  | .nan, _ => .nan
  | _, .nan => .nan
  | .inf _, .inf _ => .nan
  | .inf s, .fin t _ => .inf (xor s t)
  | .fin s _, .inf t => .fin (xor s t) 0
  | .fin s a, .fin t b =>
    if b = 0 then (if a = 0 then .nan else .inf (xor s t))
    else if a = 0 then .fin (xor s t) 0
    else signApply (xor s t) (roundFrac (a * pow2 1074) b)

/-- Correctly rounded square root of the positive magnitude k (in units of
2 ^ (-1074)): the target is the square root of k * 2 ^ 1074 in the same
units. -/
def sqrtPos (k : Nat) : F64 :=
  let t := k * pow2 1074
  let s := if t < pow2 106 then 0 else natLog2 t / 2 - 52
  let m0 := isqrtN (t / pow2 (2 * s))
  let c4 := 4 * t
  let tw := (2 * m0 + 1) * (2 * m0 + 1) * pow2 (2 * s)
  let m :=
    if c4 < tw then m0
    else if tw < c4 then m0 + 1
    else if m0 % 2 = 0 then m0 else m0 + 1
  .fin false (m * pow2 s)

/-- IEEE-754 square root: NaN for negative inputs, the input itself for
signed zeros, positive infinity for positive infinity. -/
def F64.sqrtF : F64 → F64
  | .nan => .nan
  | .inf s => if s then .nan else .inf false
  | .fin s k => if k = 0 then .fin s k else if s then .nan else sqrtPos k

/-- IEEE-754 equality (the == of Rust f64): NaN compares unequal to
everything, -0 equals +0, otherwise sign and magnitude must agree. -/
def F64.beq : F64 → F64 → Bool
  | .inf s, .inf t => s == t
  | .fin s a, .fin t b => a == b && (a == 0 || s == t)
  | _, _ => false

/-- Truth of being the canonical NaN. -/
def F64.isNan : F64 → Bool
  | .nan => true
  | _ => false

/-- Truth of being a finite value (zero included). -/
def F64.isFinite : F64 → Bool
  | .fin _ _ => true
  | _ => false

/-- Truth of being a zero of either sign. -/
def F64.isZero : F64 → Bool
  | .fin _ k => k == 0
  | _ => false

/-- Numerical agreement of two double results: equal in the IEEE sense, or
both NaN.  This is the right notion of two computations producing the same
floating-point outcome. -/
def F64.numEq (x y : F64) : Bool := x.beq y || (x.isNan && y.isNan)

/-- Well-formedness: the value is a real binary64, i.e. a finite magnitude is
at most `KMAX` and has at most 53 significant bits.  Every value produced by
the arithmetic operations is well-formed. -/
def F64.wf : F64 → Prop
  | .fin _ k => k ≤ KMAX ∧ ∃ m s, m < 2 ^ 53 ∧ k = m * 2 ^ s
  | _ => True

/-- Magnitude bound for a finite value (false on NaN and infinities). -/
def F64.absLe : F64 → Nat → Prop
  | .fin _ k, b => k ≤ b
  | _, _ => False

/-- Ordered lane sum of a 4-lane register, as performed by Rust's
`SimdFloat::reduce_sum`: a sequential fold starting from -0.0 (the intrinsic
`simd_reduce_add_ordered` with initial value -0.0). -/
def reduceSum4 (l0 l1 l2 l3 : F64) : F64 :=
  ((((F64.negZero.add l0).add l1).add l2).add l3)

/-- Model of `Vector2`, a pair of f64 lanes. -/
structure Vector2 : Type where
  x : F64
  y : F64
deriving DecidableEq

namespace Vector2

/-- Vector2::new. -/
def new (x y : F64) : Vector2 := ⟨x, y⟩

/-- Vector2::zeros. -/
def zeros : Vector2 := ⟨F64.zero, F64.zero⟩

/-- Modelled from the spec: Vector2::ones.  The source (vec2.rs line 28)
passes the four-element array literal [1.0, 1.0, 0.0, 0.0] to
f64x2::from_array, which requires a two-element [f64; 2] — a type error, so
the function does not compile and fixes no behavior.  The spec determines
the intended value: all active lanes 1.0. -/
def ones : Vector2 := ⟨F64.one, F64.one⟩

/-- Vector2::set_x. -/
def set_x (v : Vector2) (a : F64) : Vector2 := ⟨a, v.y⟩

/-- Vector2::set_y. -/
def set_y (v : Vector2) (a : F64) : Vector2 := ⟨v.x, a⟩

/-- Vector2::dot: prod = self.0 * rhs.0; prod[0] + prod[1]. -/
def dot (a b : Vector2) : F64 := (a.x.mul b.x).add (a.y.mul b.y)

/-- Vector2::magnitude_squared = self.dot(self). -/
def magnitude_squared (a : Vector2) : F64 := dot a a

/-- Vector2::magnitude = sqrt of magnitude_squared. -/
def magnitude (a : Vector2) : F64 := (magnitude_squared a).sqrtF

/-- Vector2::cross: x1*y2 - y1*x2, a scalar. -/
def cross (a b : Vector2) : F64 := (a.x.mul b.y).sub (a.y.mul b.x)

/-- Operator + (lane-wise). -/
def add (a b : Vector2) : Vector2 := ⟨a.x.add b.x, a.y.add b.y⟩

/-- Operator - (lane-wise). -/
def sub (a b : Vector2) : Vector2 := ⟨a.x.sub b.x, a.y.sub b.y⟩

/-- Operator * by a scalar: self.0 * f64x2::splat(rhs). -/
def mul (a : Vector2) (s : F64) : Vector2 := ⟨a.x.mul s, a.y.mul s⟩

/-- Operator / by a scalar: self.0 / f64x2::splat(rhs), true lane-wise
division. -/
def div (a : Vector2) (s : F64) : Vector2 := ⟨a.x.div s, a.y.div s⟩

/-- Unary negation (lane-wise). -/
def neg (a : Vector2) : Vector2 := ⟨a.x.neg, a.y.neg⟩

/-- Operator +=: self.0 += rhs.0 (the simd AddAssign is add-then-store). -/
def add_assign (a b : Vector2) : Vector2 := ⟨a.x.add b.x, a.y.add b.y⟩

/-- Operator -=. -/
def sub_assign (a b : Vector2) : Vector2 := ⟨a.x.sub b.x, a.y.sub b.y⟩

/-- Operator *= by a scalar: self.0 *= f64x2::splat(rhs). -/
def mul_assign (a : Vector2) (s : F64) : Vector2 := ⟨a.x.mul s, a.y.mul s⟩

/-- Operator /= by a scalar: self.0 /= f64x2::splat(rhs). -/
def div_assign (a : Vector2) (s : F64) : Vector2 := ⟨a.x.div s, a.y.div s⟩

/-- Vector2::normalize: zero vector when magnitude == 0.0, otherwise
self * (1.0 / magnitude). -/
def normalize (a : Vector2) : Vector2 :=
  let mag := magnitude a
  if mag.beq F64.zero then zeros else mul a (F64.one.div mag)

/-- Vector2::distance = (self - rhs).magnitude(). -/
def distance (a b : Vector2) : F64 := magnitude (sub a b)

/-- Vector2::distance_squared. -/
def distance_squared (a b : Vector2) : F64 := magnitude_squared (sub a b)

/-- PartialEq for Vector2: lane-wise f64 == on both lanes. -/
def beqV (a b : Vector2) : Bool := a.x.beq b.x && a.y.beq b.y

/-- Well-formedness of both lanes. -/
def wf (v : Vector2) : Prop := v.x.wf ∧ v.y.wf

end Vector2

/-- Model of `Vector3`, a 4-lane register whose fourth lane `w` is the
padding lane. -/
structure Vector3 : Type where
  x : F64
  y : F64
  z : F64
  w : F64
deriving DecidableEq

namespace Vector3

/-- Vector3::new: fourth lane set to 0.0. -/
def new (x y z : F64) : Vector3 := ⟨x, y, z, F64.zero⟩

/-- Vector3::zeros (f64x4::default, all +0.0). -/
def zeros : Vector3 := ⟨F64.zero, F64.zero, F64.zero, F64.zero⟩

/-- Vector3::ones: [1.0, 1.0, 1.0, 0.0]. -/
def ones : Vector3 := ⟨F64.one, F64.one, F64.one, F64.zero⟩

/-- Vector3::set_x. -/
def set_x (v : Vector3) (a : F64) : Vector3 := ⟨a, v.y, v.z, v.w⟩

/-- Vector3::set_y. -/
def set_y (v : Vector3) (a : F64) : Vector3 := ⟨v.x, a, v.z, v.w⟩

/-- Vector3::set_z. -/
def set_z (v : Vector3) (a : F64) : Vector3 := ⟨v.x, v.y, a, v.w⟩

/-- Vector3::dot: (self.0 * rhs.0).reduce_sum(), over all four lanes. -/
def dot (a b : Vector3) : F64 :=
  reduceSum4 (a.x.mul b.x) (a.y.mul b.y) (a.z.mul b.z) (a.w.mul b.w)

/-- Vector3::magnitude_squared: (self.0 * self.0).reduce_sum(). -/
def magnitude_squared (a : Vector3) : F64 :=
  reduceSum4 (a.x.mul a.x) (a.y.mul a.y) (a.z.mul a.z) (a.w.mul a.w)

/-- Vector3::magnitude. -/
def magnitude (a : Vector3) : F64 := (magnitude_squared a).sqrtF

/-- Vector3::cross: standard 3D cross product, fourth lane written 0.0. -/
def cross (a b : Vector3) : Vector3 :=
  ⟨(a.y.mul b.z).sub (a.z.mul b.y),
   (a.z.mul b.x).sub (a.x.mul b.z),
   (a.x.mul b.y).sub (a.y.mul b.x),
   F64.zero⟩

/-- Operator + (all four lanes). -/
def add (a b : Vector3) : Vector3 := ⟨a.x.add b.x, a.y.add b.y, a.z.add b.z, a.w.add b.w⟩

/-- Operator - (all four lanes). -/
def sub (a b : Vector3) : Vector3 := ⟨a.x.sub b.x, a.y.sub b.y, a.z.sub b.z, a.w.sub b.w⟩

/-- Operator * by a scalar: self.0 * f64x4::splat(rhs), all four lanes. -/
def mul (a : Vector3) (s : F64) : Vector3 := ⟨a.x.mul s, a.y.mul s, a.z.mul s, a.w.mul s⟩

/-- Operator / by a scalar: the source computes self.0 * splat(1.0 / rhs),
multiplication by the rounded reciprocal, not lane-wise division. -/
def div (a : Vector3) (s : F64) : Vector3 :=
  let inv := F64.one.div s
  ⟨a.x.mul inv, a.y.mul inv, a.z.mul inv, a.w.mul inv⟩

/-- Unary negation (all four lanes, so the padding lane becomes -0.0). -/
def neg (a : Vector3) : Vector3 := ⟨a.x.neg, a.y.neg, a.z.neg, a.w.neg⟩

/-- Operator +=. -/
def add_assign (a b : Vector3) : Vector3 := ⟨a.x.add b.x, a.y.add b.y, a.z.add b.z, a.w.add b.w⟩

/-- Operator -=. -/
def sub_assign (a b : Vector3) : Vector3 := ⟨a.x.sub b.x, a.y.sub b.y, a.z.sub b.z, a.w.sub b.w⟩

/-- Operator *=: self.0 *= f64x4::splat(rhs). -/
def mul_assign (a : Vector3) (s : F64) : Vector3 := ⟨a.x.mul s, a.y.mul s, a.z.mul s, a.w.mul s⟩

/-- Operator /=: self.0 /= f64x4::splat(rhs), true lane-wise division, unlike
the non-assigning /. -/
def div_assign (a : Vector3) (s : F64) : Vector3 := ⟨a.x.div s, a.y.div s, a.z.div s, a.w.div s⟩

/-- Vector3::normalize. -/
def normalize (a : Vector3) : Vector3 :=
  let mag := magnitude a
  if mag.beq F64.zero then zeros else mul a (F64.one.div mag)

/-- Vector3::distance. -/
def distance (a b : Vector3) : F64 := magnitude (sub a b)

/-- Vector3::distance_squared. -/
def distance_squared (a b : Vector3) : F64 := magnitude_squared (sub a b)

/-- PartialEq for Vector3: f64 == on the three active lanes only. -/
def beqV (a b : Vector3) : Bool := a.x.beq b.x && a.y.beq b.y && a.z.beq b.z

/-- Well-formedness of all four lanes. -/
def wf (v : Vector3) : Prop := v.x.wf ∧ v.y.wf ∧ v.z.wf ∧ v.w.wf

end Vector3

/-! ## Correctness of the rounding core -/

theorem pow2_eq (k : Nat) : pow2 k = 2 ^ k := by
  rw [pow2, Nat.shiftLeft_eq, one_mul]

theorem pow2_pos (k : Nat) : 0 < pow2 k := by
  rw [pow2_eq]
  positivity

theorem pow2_ne_zero (k : Nat) : pow2 k ≠ 0 := (pow2_pos k).ne'

theorem log2Step_inv (n acc p : Nat) (h1 : 2 ^ acc ≤ n) (h2 : n < 2 ^ (acc + 2 * p)) :
    2 ^ log2Step n acc p ≤ n ∧ n < 2 ^ (log2Step n acc p + p) := by
  rw [log2Step]
  simp only [pow2_eq]
  split
  · next h =>
    refine ⟨h, ?_⟩
    have he : acc + 2 * p = acc + p + p := by omega
    rw [he] at h2
    exact h2
  · next h =>
    push_neg at h
    exact ⟨h1, h⟩

theorem natLog2_spec (n : Nat) (h1 : 0 < n) (h2 : n < 2 ^ 8192) :
    2 ^ natLog2 n ≤ n ∧ n < 2 ^ (natLog2 n + 1) := by
  have s0a : 2 ^ 0 ≤ n := by simpa using h1
  have s0b : n < 2 ^ (0 + 2 * 4096) := by simpa using h2
  have s1 := log2Step_inv n 0 4096 s0a s0b
  have s2 := log2Step_inv n _ 2048 s1.1 (by simpa using s1.2)
  have s3 := log2Step_inv n _ 1024 s2.1 (by simpa using s2.2)
  have s4 := log2Step_inv n _ 512 s3.1 (by simpa using s3.2)
  have s5 := log2Step_inv n _ 256 s4.1 (by simpa using s4.2)
  have s6 := log2Step_inv n _ 128 s5.1 (by simpa using s5.2)
  have s7 := log2Step_inv n _ 64 s6.1 (by simpa using s6.2)
  have s8 := log2Step_inv n _ 32 s7.1 (by simpa using s7.2)
  have s9 := log2Step_inv n _ 16 s8.1 (by simpa using s8.2)
  have s10 := log2Step_inv n _ 8 s9.1 (by simpa using s9.2)
  have s11 := log2Step_inv n _ 4 s10.1 (by simpa using s10.2)
  have s12 := log2Step_inv n _ 2 s11.1 (by simpa using s11.2)
  have s13 := log2Step_inv n _ 1 s12.1 (by simpa using s12.2)
  simpa [natLog2, List.foldl] using s13

theorem ilog2q_spec (a b : Nat) (hb : 0 < b) (hba : b ≤ a)
    (ha : a < 2 ^ 4700) (hbb : b < 2 ^ 4700) :
    2 ^ ilog2q a b * b ≤ a ∧ a < 2 ^ (ilog2q a b + 1) * b := by
  have hbig : (2:Nat) ^ 4700 ≤ 2 ^ 8192 := Nat.pow_le_pow_right (by norm_num) (by norm_num)
  obtain ⟨la1, la2⟩ := natLog2_spec a (by omega) (by omega)
  obtain ⟨lb1, lb2⟩ := natLog2_spec b hb (by omega)
  rw [ilog2q]
  simp only [pow2_eq]
  set la := natLog2 a with hla
  set lb := natLog2 b with hlb
  clear_value la lb
  have hll : lb ≤ la := by
    by_contra hc
    push_neg at hc
    have : 2 ^ (la + 1) ≤ 2 ^ lb := Nat.pow_le_pow_right (by norm_num) (by omega)
    omega
  have hg1 : 2 ^ (la - lb + 1) * 2 ^ lb = 2 ^ (la + 1) := by
    rw [← pow_add]; congr 1; omega
  have hg1b : 2 ^ (la + 1) ≤ 2 ^ (la - lb + 1) * b := by
    calc 2 ^ (la + 1) = 2 ^ (la - lb + 1) * 2 ^ lb := hg1.symm
    _ ≤ 2 ^ (la - lb + 1) * b := Nat.mul_le_mul_left _ lb1
  split
  · next h1 => omega
  · next h1 =>
    split
    · next h2 => omega
    · next h2 =>
      have hgz : la - lb ≠ 0 := by
        intro hz
        rw [hz] at h2
        simp at h2
        omega
      have hsub : la - lb - 1 + 1 = la - lb := by omega
      constructor
      · have hq : 2 ^ (la - lb - 1) * 2 ^ (lb + 1) = 2 ^ la := by
          rw [← pow_add]; congr 1; omega
        have : 2 ^ (la - lb - 1) * b < 2 ^ la := by
          calc 2 ^ (la - lb - 1) * b < 2 ^ (la - lb - 1) * 2 ^ (lb + 1) :=
            (Nat.mul_lt_mul_left (Nat.pos_pow_of_pos _ (by norm_num))).mpr lb2
          _ = 2 ^ la := hq
        omega
      · rw [hsub]; omega

theorem canon_decomp : ∀ (s m : Nat), m < 2 ^ 53 →
    ∃ m2 s2, m2 < 2 ^ 53 ∧ (2 ^ 52 ≤ m2 ∨ s2 = 0) ∧ m * 2 ^ s = m2 * 2 ^ s2 := by
  intro s
  induction s with
  | zero => intro m hm; exact ⟨m, 0, hm, Or.inr rfl, rfl⟩
  | succ s ih =>
    intro m hm
    by_cases hc : 2 ^ 52 ≤ m
    · exact ⟨m, s + 1, hm, Or.inl hc, rfl⟩
    · obtain ⟨m2, s2, h1, h2, h3⟩ := ih (2 * m) (by omega)
      exact ⟨m2, s2, h1, h2, by rw [← h3]; ring⟩

theorem roundFrac_ne_nan (a b : Nat) : roundFrac a b ≠ .nan := by
  simp only [roundFrac, roundFin]
  split <;> simp

theorem roundM_le (a d m0 : Nat) : m0 ≤ roundM a d m0 ∧ roundM a d m0 ≤ m0 + 1 := by
  simp only [roundM]
  repeat' split
  all_goals omega

theorem roundM_exact (a d m0 : Nat) (hd : 0 < d) (he : m0 * d = a) : roundM a d m0 = m0 := by
  simp only [roundM]
  rw [if_pos (by omega)]

set_option maxRecDepth 8000 in
theorem roundFrac_wf (a b : Nat) (hb : 0 < b) (ha : a < 2 ^ 4700) (hbb : b < 2 ^ 4700) :
    (roundFrac a b).wf := by
  rw [roundFrac]
  simp only [pow2_eq]
  have hm0 : a / (b * 2 ^ roundShift a b) < 2 ^ 53 := by
    rw [roundShift]
    simp only [pow2_eq]
    split
    · next h =>
      simp only [pow_zero, mul_one]
      exact Nat.div_lt_of_lt_mul (by linarith)
    · next h =>
      push_neg at h
      have hba : b ≤ a := le_trans (Nat.le_mul_of_pos_left b (by norm_num)) h
      obtain ⟨hL1, hL2⟩ := ilog2q_spec a b hb hba ha hbb
      set L := ilog2q a b with hLdef
      clear_value L
      have hL53 : 53 ≤ L := by
        by_contra hc
        push_neg at hc
        have hp : 2 ^ (L + 1) ≤ 2 ^ 53 := Nat.pow_le_pow_right (by norm_num) (by omega)
        have h2 : 2 ^ (L + 1) * b ≤ 2 ^ 53 * b := Nat.mul_le_mul_right _ hp
        omega
      have he : 2 ^ (L + 1) = 2 ^ 53 * 2 ^ (L - 52) := by
        rw [← pow_add]; congr 1; omega
      have h3 : a < b * 2 ^ (L - 52) * 2 ^ 53 := by
        calc a < 2 ^ (L + 1) * b := hL2
        _ = b * 2 ^ (L - 52) * 2 ^ 53 := by rw [he]; ring
      exact Nat.div_lt_of_lt_mul h3
  set s := roundShift a b with hs
  clear_value s
  set d := b * 2 ^ s with hd
  have hm := roundM_le a d (a / d)
  rw [roundFin]
  split
  · trivial
  · next hk =>
    push_neg at hk
    refine ⟨hk, ?_⟩
    by_cases h53 : roundM a d (a / d) = 2 ^ 53
    · exact ⟨2 ^ 52, s + 1, by norm_num, by rw [h53]; ring⟩
    · exact ⟨roundM a d (a / d), s, by omega, rfl⟩

theorem roundFrac_exact (k b : Nat) (hb : 0 < b)
    (hrep : ∃ m s, m < 2 ^ 53 ∧ k = m * 2 ^ s) (hkmax : k ≤ KMAX)
    (hab : k * b < 2 ^ 4700) (hbb : b < 2 ^ 4700) :
    roundFrac (k * b) b = .fin false k := by
  obtain ⟨m1, s1, hm1, hk1⟩ := hrep
  obtain ⟨m, s, hm, hcan, hks⟩ := canon_decomp s1 m1 hm1
  have hk : k = m * 2 ^ s := by rw [hk1, hks]
  by_cases hsmall : k < 2 ^ 53
  · have hsh : roundShift (k * b) b = 0 := by
      rw [roundShift, if_pos (by rw [pow2_eq]; exact (Nat.mul_lt_mul_right hb).mpr hsmall)]
    rw [roundFrac, hsh]
    simp only [pow2_eq, pow_zero, mul_one]
    rw [Nat.mul_div_cancel k hb, roundM_exact _ _ _ hb rfl, roundFin, if_neg (by omega)]
  · push_neg at hsmall
    have hm52 : 2 ^ 52 ≤ m := by
      rcases hcan with hc | hc
      · exact hc
      · rw [hc] at hk; simp at hk; omega
    have hs1 : 1 ≤ s := by
      by_contra hc
      push_neg at hc
      interval_cases s
      simp at hk
      omega
    have hkpos : 0 < k := by omega
    have hbk : b ≤ k * b := Nat.le_mul_of_pos_left b hkpos
    obtain ⟨hL1, hL2⟩ := ilog2q_spec (k * b) b hb hbk hab hbb
    set L := ilog2q (k * b) b with hLdef
    clear_value L
    have hc1 : 2 ^ L ≤ k := Nat.le_of_mul_le_mul_right hL1 hb
    have hc2 : k < 2 ^ (L + 1) := Nat.lt_of_mul_lt_mul_right hL2
    have hk_lo : 2 ^ (52 + s) ≤ k := by
      rw [hk, pow_add]
      exact Nat.mul_le_mul_right _ hm52
    have hk_hi : k < 2 ^ (53 + s) := by
      rw [hk, pow_add]
      exact (Nat.mul_lt_mul_right (Nat.pos_pow_of_pos _ (by norm_num))).mpr hm
    have hLeq : L = 52 + s := by
      rcases Nat.lt_or_ge L (52 + s) with hlt | hge
      · have : 2 ^ (L + 1) ≤ 2 ^ (52 + s) := Nat.pow_le_pow_right (by norm_num) (by omega)
        omega
      · rcases Nat.lt_or_ge L (53 + s) with hlt2 | hge2
        · omega
        · have : 2 ^ (53 + s) ≤ 2 ^ L := Nat.pow_le_pow_right (by norm_num) hge2
          omega
    have hns : ¬ k * b < pow2 53 * b := by
      push_neg
      rw [pow2_eq]
      exact Nat.mul_le_mul_right _ hsmall
    have hsh : roundShift (k * b) b = s := by
      rw [roundShift, if_neg hns, ← hLdef, hLeq]
      omega
    rw [roundFrac, hsh]
    simp only [pow2_eq]
    have hdd : 0 < b * 2 ^ s := by positivity
    have hdiv : k * b / (b * 2 ^ s) = m := by
      rw [hk]
      have harr : m * 2 ^ s * b = m * (b * 2 ^ s) := by ring
      rw [harr, Nat.mul_div_cancel m hdd]
    rw [hdiv, roundM_exact _ _ _ hdd (by rw [hk]; ring), ← hk, roundFin, if_neg (by omega)]

/-! ## Bounds on the overflow threshold -/

theorem KMAX_lt : KMAX < 2 ^ 2098 := by
  have h1 : KMAX < 2 ^ 53 * 2 ^ 2045 := by
    rw [KMAX]
    simp only [pow2_eq]
    apply (Nat.mul_lt_mul_right (Nat.pos_pow_of_pos _ (by norm_num))).mpr
    have h0 : 0 < 2 ^ 53 := Nat.pos_pow_of_pos _ (by norm_num)
    omega
  calc KMAX < 2 ^ 53 * 2 ^ 2045 := h1
  _ = 2 ^ 2098 := by rw [← pow_add]

theorem KMAX_ge : 2 ^ 2097 ≤ KMAX := by
  rw [KMAX]
  simp only [pow2_eq]
  have h1 : (2:Nat) ^ 2097 = 2 ^ 52 * 2 ^ 2045 := by rw [← pow_add]
  rw [h1]
  apply Nat.mul_le_mul_right
  have h2 : (2:Nat) ^ 53 = 2 ^ 52 * 2 := by rw [pow_succ]
  have h3 : 0 < 2 ^ 52 := Nat.pos_pow_of_pos _ (by norm_num)
  omega

/-! ## Structural facts about the scalar operations -/

theorem zero_wf (sg : Bool) : (F64.fin sg 0).wf :=
  ⟨Nat.zero_le _, 0, 0, Nat.pos_pow_of_pos _ (by norm_num), by norm_num⟩

theorem signApply_wf (s : Bool) (x : F64) (hx : x.wf) : (signApply s x).wf := by
  cases x <;> simpa [signApply, F64.wf] using hx

theorem neg_wf (x : F64) (hx : x.wf) : x.neg.wf := by
  cases x <;> simpa [F64.neg, F64.wf] using hx

theorem isNan_neg (x : F64) : x.neg.isNan = x.isNan := by
  cases x <;> rfl

theorem roundFrac_isNan (a b : Nat) : (roundFrac a b).isNan = false := by
  have h := roundFrac_ne_nan a b
  cases hr : roundFrac a b <;> simp [F64.isNan]
  exact h hr

theorem sval_natAbs_le (s t : Bool) (a b : Nat) :
    ((if s then -(a : Int) else (a : Int)) + (if t then -(b : Int) else (b : Int))).natAbs
      ≤ a + b := by
  cases s <;> cases t <;> simp <;> omega

theorem add_wf (x y : F64) (hx : x.wf) (hy : y.wf) : (x.add y).wf := by
  cases x with
  | nan => cases y <;> trivial
  | inf s =>
    cases y with
    | nan => trivial
    | inf t =>
      simp only [F64.add]
      split <;> trivial
    | fin t b => trivial
  | fin s a =>
    cases y with
    | nan => trivial
    | inf t => trivial
    | fin t b =>
      obtain ⟨hka, -⟩ := hx
      obtain ⟨hkb, -⟩ := hy
      have hbound : ∀ K : Nat, K ≤ a + b → (roundFrac K 1).wf := by
        intro K hK
        apply roundFrac_wf K 1 (by norm_num) ?_ (by norm_num)
        have h1 : KMAX < 2 ^ 2098 := KMAX_lt
        have h5 : (2:Nat) ^ 2099 = 2 ^ 2098 + 2 ^ 2098 := by rw [pow_succ]; ring
        have h6 : (2:Nat) ^ 2099 ≤ 2 ^ 4700 := Nat.pow_le_pow_right (by norm_num) (by norm_num)
        omega
      cases s <;> cases t <;> simp only [F64.add, Bool.false_eq_true, if_false, if_true]
      all_goals repeat' split
      all_goals
        first
        | exact zero_wf _
        | exact neg_wf _ (hbound _ (by omega))
        | exact hbound _ (by omega)

theorem mul_wf (x y : F64) (hx : x.wf) (hy : y.wf) : (x.mul y).wf := by
  cases x with
  | nan => cases y <;> trivial
  | inf s =>
    cases y with
    | nan => trivial
    | inf t => trivial
    | fin t b =>
      simp only [F64.mul]
      split <;> trivial
  | fin s a =>
    cases y with
    | nan => trivial
    | inf t =>
      simp only [F64.mul]
      split <;> trivial
    | fin t b =>
      obtain ⟨hka, -⟩ := hx
      obtain ⟨hkb, -⟩ := hy
      simp only [F64.mul]
      split
      · exact zero_wf _
      · apply signApply_wf
        apply roundFrac_wf
        · exact pow2_pos _
        · calc a * b ≤ KMAX * KMAX := Nat.mul_le_mul hka hkb
          _ < 2 ^ 2098 * 2 ^ 2098 := Nat.mul_lt_mul'' KMAX_lt KMAX_lt
          _ = 2 ^ 4196 := by rw [← pow_add]
          _ < 2 ^ 4700 := Nat.pow_lt_pow_right (by norm_num) (by norm_num)
        · rw [pow2_eq]
          exact Nat.pow_lt_pow_right (by norm_num) (by norm_num)

theorem roundFrac_id (k : Nat) (hkmax : k ≤ KMAX)
    (hrep : ∃ m s, m < 2 ^ 53 ∧ k = m * 2 ^ s) :
    roundFrac k 1 = .fin false k := by
  have hb : k * 1 < 2 ^ 4700 := by
    have h1 : KMAX < 2 ^ 2098 := KMAX_lt
    have h6 : (2:Nat) ^ 2098 ≤ 2 ^ 4700 := Nat.pow_le_pow_right (by norm_num) (by norm_num)
    omega
  have h := roundFrac_exact k 1 (by norm_num) hrep hkmax hb (by norm_num)
  rwa [mul_one] at h

theorem add_negZero (x : F64) (hx : x.wf) : F64.negZero.add x = x := by
  cases x with
  | nan => rfl
  | inf s => rfl
  | fin t b =>
    obtain ⟨hkb, hrep⟩ := hx
    by_cases hb0 : b = 0
    · subst hb0
      cases t <;> rfl
    · cases t with
      | false =>
        simp only [F64.negZero, F64.add, Nat.cast_zero, neg_zero, ite_self, zero_add,
          Bool.false_eq_true, if_false]
        rw [if_neg (by exact_mod_cast hb0), if_neg (by omega)]
        simp only [Int.natAbs_ofNat]
        exact roundFrac_id b hkb hrep
      | true =>
        simp only [F64.negZero, F64.add, Nat.cast_zero, neg_zero, ite_self, zero_add, if_true]
        rw [if_neg (by omega), if_pos (by omega)]
        simp only [Int.natAbs_neg, Int.natAbs_ofNat]
        rw [roundFrac_id b hkb hrep]
        rfl

theorem beq_refl_notNan (x : F64) (hx : x.isNan = false) : x.beq x = true := by
  cases x <;> simp [F64.beq, F64.isNan] at hx ⊢

theorem numEq_refl (x : F64) : x.numEq x = true := by
  cases x <;> simp [F64.numEq, F64.beq, F64.isNan]

theorem add_zero_numEq (x z : F64) (hx : x.wf) (hz : z.isZero = true) :
    (x.add z).numEq x = true := by
  cases z with
  | nan => simp [F64.isZero] at hz
  | inf u => simp [F64.isZero] at hz
  | fin u kz =>
    have hkz : kz = 0 := by simpa [F64.isZero] using hz
    subst hkz
    cases x with
    | nan => simp [F64.add, F64.numEq, F64.isNan]
    | inf s => simp [F64.add, F64.numEq, F64.beq, F64.isNan]
    | fin s a =>
      obtain ⟨hka, hrep⟩ := hx
      by_cases ha0 : a = 0
      · subst ha0
        cases s <;> cases u <;> simp [F64.add, F64.numEq, F64.beq]
      · cases s with
        | false =>
          simp only [F64.add, Nat.cast_zero, neg_zero, ite_self, add_zero,
            Bool.false_eq_true, if_false]
          rw [if_neg (by exact_mod_cast ha0), if_neg (by omega)]
          simp only [Int.natAbs_ofNat]
          rw [roundFrac_id a hka hrep]
          exact numEq_refl _
        | true =>
          simp only [F64.add, Nat.cast_zero, neg_zero, ite_self, add_zero, if_true]
          rw [if_neg (by omega), if_pos (by omega)]
          simp only [Int.natAbs_neg, Int.natAbs_ofNat]
          rw [roundFrac_id a hka hrep]
          exact numEq_refl _

/-! ## Zero, NaN and sign facts used by the claims -/

theorem isZero_fin (x : F64) (hx : x.isZero = true) : ∃ u, x = .fin u 0 := by
  cases x with
  | nan => simp [F64.isZero] at hx
  | inf s => simp [F64.isZero] at hx
  | fin u k =>
    have hk : k = 0 := by simpa [F64.isZero] using hx
    exact ⟨u, by rw [hk]⟩

theorem mul_isZero_left (x s : F64) (hx : x.isZero = true) (hs : s.isFinite = true) :
    (x.mul s).isZero = true := by
  obtain ⟨u, rfl⟩ := isZero_fin x hx
  cases s with
  | nan => simp [F64.isFinite] at hs
  | inf t => simp [F64.isFinite] at hs
  | fin t b => simp [F64.mul, F64.isZero]

theorem mul_isZero (x y : F64) (hx : x.isZero = true) (hy : y.isZero = true) :
    (x.mul y).isZero = true := by
  obtain ⟨u, rfl⟩ := isZero_fin x hx
  obtain ⟨v, rfl⟩ := isZero_fin y hy
  simp [F64.mul, F64.isZero]

theorem div_isZero_left (x s : F64) (hx : x.isZero = true) (hs0 : s.isZero = false)
    (hsn : s.isNan = false) : (x.div s).isZero = true := by
  obtain ⟨u, rfl⟩ := isZero_fin x hx
  cases s with
  | nan => simp [F64.isNan] at hsn
  | inf t => simp [F64.div, F64.isZero]
  | fin t b =>
    have hb : ¬ b = 0 := by simpa [F64.isZero] using hs0
    simp [F64.div, F64.isZero, hb]

theorem add_isZero (x y : F64) (hx : x.isZero = true) (hy : y.isZero = true) :
    (x.add y).isZero = true := by
  obtain ⟨u, rfl⟩ := isZero_fin x hx
  obtain ⟨v, rfl⟩ := isZero_fin y hy
  cases u <;> cases v <;> simp [F64.add, F64.isZero]

theorem neg_isZero (x : F64) (hx : x.isZero = true) : x.neg.isZero = true := by
  obtain ⟨u, rfl⟩ := isZero_fin x hx
  simp [F64.neg, F64.isZero]

theorem sub_isZero (x y : F64) (hx : x.isZero = true) (hy : y.isZero = true) :
    (x.sub y).isZero = true := by
  rw [F64.sub]
  exact add_isZero _ _ hx (neg_isZero _ hy)

theorem isFinite_notNan (x : F64) (hx : x.isFinite = true) : x.isNan = false := by
  cases x <;> simp [F64.isFinite, F64.isNan] at hx ⊢

theorem add_notNan (x y : F64) (hx : x.isFinite = true) (hy : y.isFinite = true) :
    (x.add y).isNan = false := by
  cases x with
  | nan => simp [F64.isFinite] at hx
  | inf s => simp [F64.isFinite] at hx
  | fin s a =>
    cases y with
    | nan => simp [F64.isFinite] at hy
    | inf t => simp [F64.isFinite] at hy
    | fin t b =>
      simp only [F64.add]
      repeat' split
      all_goals
        first
        | rfl
        | (rw [isNan_neg]; exact roundFrac_isNan _ _)
        | exact roundFrac_isNan _ _

theorem add_comm_struct (x y : F64) : x.add y = y.add x := by
  cases x with
  | nan => cases y <;> rfl
  | inf s =>
    cases y with
    | nan => rfl
    | inf t =>
      simp only [F64.add]
      by_cases h : s = t
      · subst h; rfl
      · rw [if_neg h, if_neg (Ne.symm h)]
    | fin t b => rfl
  | fin s a =>
    cases y with
    | nan => rfl
    | inf t => rfl
    | fin t b =>
      simp only [F64.add]
      rw [Int.add_comm, Bool.and_comm]

theorem add_neg_self_beq_zero (x : F64) (hx : x.isFinite = true) :
    (x.add x.neg).beq F64.zero = true := by
  cases x with
  | nan => simp [F64.isFinite] at hx
  | inf s => simp [F64.isFinite] at hx
  | fin s a =>
    cases s <;> simp [F64.neg, F64.add, F64.beq, F64.zero]

theorem beq_false_of_nan_left (y : F64) : F64.nan.beq y = false := by
  cases y <;> rfl

theorem isNan_eq (x : F64) (hx : x.isNan = true) : x = F64.nan := by
  cases x <;> simp [F64.isNan] at hx ⊢

theorem mul_inv_zero_eq_div_zero (x : F64) :
    x.mul (F64.one.div F64.zero) = x.div F64.zero := by
  have h1 : F64.one.div F64.zero = .inf false := rfl
  rw [h1]
  cases x with
  | nan => rfl
  | inf s => rfl
  | fin s a =>
    simp only [F64.mul, F64.div, F64.zero]
    by_cases ha : a = 0
    · simp [ha]
    · simp [ha]

/-! ## Exact scaling by powers of two (for the multiply-divide round trip) -/

theorem one_div_two : F64.one.div F64.two = .fin false (2 ^ 1073) := by
  simp only [F64.one, F64.two, F64.div, pow2_eq]
  rw [if_neg (pow_ne_zero _ (by norm_num : (2:Nat) ≠ 0)),
    if_neg (pow_ne_zero _ (by norm_num : (2:Nat) ≠ 0))]
  have harg : (2:Nat) ^ 1074 * 2 ^ 1074 = 2 ^ 1073 * 2 ^ 1075 := by
    rw [← pow_add, ← pow_add]
  have hke : (2:Nat) ^ 1073 ≤ KMAX := by
    have h1 : (2:Nat) ^ 1073 ≤ 2 ^ 2097 := Nat.pow_le_pow_right (by norm_num) (by norm_num)
    have h2 := KMAX_ge
    omega
  have hb1 : (2:Nat) ^ 1073 * 2 ^ 1075 < 2 ^ 4700 := by
    rw [← pow_add]
    exact Nat.pow_lt_pow_right (by norm_num) (by norm_num)
  have hb2 : (2:Nat) ^ 1075 < 2 ^ 4700 := Nat.pow_lt_pow_right (by norm_num) (by norm_num)
  rw [harg, roundFrac_exact (2 ^ 1073) (2 ^ 1075) (by positivity)
    ⟨2 ^ 52, 1021, by norm_num, by rw [← pow_add]⟩ hke hb1 hb2]
  rfl

theorem lane_mul_two_div_two (x : F64) (hx : x.wf) (hfin : x.isFinite = true)
    (hbd : x.absLe (pow2 2096)) :
    (x.mul F64.two).div F64.two = x ∧ (x.mul F64.two).mul (F64.one.div F64.two) = x := by
  cases x with
  | nan => simp [F64.isFinite] at hfin
  | inf s => simp [F64.isFinite] at hfin
  | fin s a =>
    obtain ⟨hka, m, j, hm, hkj⟩ := hx
    have hbd2 : a ≤ 2 ^ 2096 := by
      have h0 : a ≤ pow2 2096 := hbd
      rwa [pow2_eq] at h0
    have h2n : ¬ (2:Nat) ^ 1075 = 0 := pow_ne_zero _ (by norm_num)
    have h2p : ¬ pow2 1075 = 0 := pow2_ne_zero 1075
    by_cases ha : a = 0
    · subst ha
      constructor
      · simp [F64.mul, F64.div, F64.two, pow2_eq, h2n]
      · rw [one_div_two]
        simp [F64.mul, F64.two, pow2_eq]
    · have hmul : (F64.fin s a).mul F64.two = .fin s (2 * a) := by
        simp only [F64.mul, F64.two, pow2_eq]
        rw [if_neg (by simp [ha, h2n])]
        have harg : a * 2 ^ 1075 = (2 * a) * 2 ^ 1074 := by ring
        have hrep2 : ∃ m2 s2, m2 < 2 ^ 53 ∧ 2 * a = m2 * 2 ^ s2 :=
          ⟨m, j + 1, hm, by rw [hkj]; ring⟩
        have hk2 : 2 * a ≤ KMAX := by
          have h1 : (2:Nat) ^ 2097 = 2 ^ 2096 + 2 ^ 2096 := by rw [pow_succ]; ring
          have h2 := KMAX_ge
          omega
        have hb1 : (2 * a) * 2 ^ 1074 < 2 ^ 4700 := by
          have h1 : (2 * a) * 2 ^ 1074 ≤ (2 * 2 ^ 2096) * 2 ^ 1074 := by
            apply Nat.mul_le_mul_right
            omega
          have h2 : (2:Nat) * 2 ^ 2096 * 2 ^ 1074 = 2 ^ 3171 := by
            rw [mul_assoc, ← pow_add, ← pow_succ']
          have h3 : (2:Nat) ^ 3171 < 2 ^ 4700 := Nat.pow_lt_pow_right (by norm_num) (by norm_num)
          omega
        have hb2 : (2:Nat) ^ 1074 < 2 ^ 4700 := Nat.pow_lt_pow_right (by norm_num) (by norm_num)
        rw [harg, roundFrac_exact (2 * a) (2 ^ 1074) (by positivity) hrep2 hk2 hb1 hb2]
        cases s <;> rfl
      have hrep1 : ∃ m2 s2, m2 < 2 ^ 53 ∧ a = m2 * 2 ^ s2 := ⟨m, j, hm, hkj⟩
      have hb2 : (2:Nat) ^ 1074 < 2 ^ 4700 := Nat.pow_lt_pow_right (by norm_num) (by norm_num)
      have hb3 : (2:Nat) ^ 1075 < 2 ^ 4700 := Nat.pow_lt_pow_right (by norm_num) (by norm_num)
      have hab1 : a * 2 ^ 1075 < 2 ^ 4700 := by
        have h1 : a * 2 ^ 1075 ≤ 2 ^ 2096 * 2 ^ 1075 := Nat.mul_le_mul_right _ hbd2
        have h2 : (2:Nat) ^ 2096 * 2 ^ 1075 = 2 ^ 3171 := by rw [← pow_add]
        have h3 : (2:Nat) ^ 3171 < 2 ^ 4700 := Nat.pow_lt_pow_right (by norm_num) (by norm_num)
        omega
      have hab2 : a * 2 ^ 1074 < 2 ^ 4700 := by
        have h1 : a * 2 ^ 1074 ≤ 2 ^ 2096 * 2 ^ 1074 := Nat.mul_le_mul_right _ hbd2
        have h2 : (2:Nat) ^ 2096 * 2 ^ 1074 = 2 ^ 3170 := by rw [← pow_add]
        have h3 : (2:Nat) ^ 3170 < 2 ^ 4700 := Nat.pow_lt_pow_right (by norm_num) (by norm_num)
        omega
      have hdiv : (F64.fin s (2 * a)).div F64.two = .fin s a := by
        simp only [F64.div, F64.two, pow2_eq]
        rw [if_neg h2n, if_neg (by omega)]
        have harg : (2 * a) * 2 ^ 1074 = a * 2 ^ 1075 := by ring
        rw [harg, roundFrac_exact a (2 ^ 1075) (by positivity) hrep1 hka hab1 hb3]
        cases s <;> rfl
      have hmulinv : (F64.fin s (2 * a)).mul (F64.one.div F64.two) = .fin s a := by
        rw [one_div_two]
        simp only [F64.mul, pow2_eq]
        rw [if_neg (by simp [ha, pow_ne_zero])]
        have harg : (2 * a) * 2 ^ 1073 = a * 2 ^ 1074 := by ring
        rw [harg, roundFrac_exact a (2 ^ 1074) (by positivity) hrep1 hka hab2 hb2]
        cases s <;> rfl
      exact ⟨by rw [hmul, hdiv], by rw [hmul, hmulinv]⟩

/-! ## Well-formedness of concrete values -/

theorem wf_small (sg : Bool) (mm ss : Nat) (h1 : mm < 2 ^ 53) (h2 : ss ≤ 2045) :
    (F64.fin sg (mm * pow2 ss)).wf := by
  refine ⟨?_, mm, ss, h1, by rw [pow2_eq]⟩
  rw [pow2_eq]
  calc mm * 2 ^ ss ≤ (2 ^ 53 - 1) * 2 ^ 2045 :=
    Nat.mul_le_mul (by omega) (Nat.pow_le_pow_right (by norm_num) h2)
  _ = KMAX := by rw [KMAX]; simp only [pow2_eq]

theorem one_wf : F64.one.wf := by
  refine ⟨?_, 1, 1074, by norm_num, by rw [pow2_eq, one_mul]⟩
  rw [pow2_eq]
  have h1 : (2:Nat) ^ 1074 ≤ 2 ^ 2097 := Nat.pow_le_pow_right (by norm_num) (by norm_num)
  have h2 := KMAX_ge
  omega

theorem two_wf : F64.two.wf := by
  refine ⟨?_, 1, 1075, by norm_num, by rw [pow2_eq, one_mul]⟩
  rw [pow2_eq]
  have h1 : (2:Nat) ^ 1075 ≤ 2 ^ 2097 := Nat.pow_le_pow_right (by norm_num) (by norm_num)
  have h2 := KMAX_ge
  omega

/-! ## The claims -/

/-- Claim C1, amended.  The Vector3 padding lane compares equal to 0.0 (IEEE
comparison, so -0.0 counts) after new, zeros, ones, cross, add, sub, neg and
the setters, assuming the operand padding lanes satisfy the invariant; after
* and *= it stays 0.0 exactly for finite scalars; after / it stays 0.0 when
1.0/s is finite; after /= it stays 0.0 when s is neither zero nor NaN.  As
stated, for arbitrary scalars including NaN and infinity, the claim is false:
those scalars leave NaN in the padding lane (see the counterexample). -/
theorem claim1_padding_invariant (xv yv zv : F64) (a b : Vector3) (s : F64)
    (ha : a.w.isZero = true) (hb : b.w.isZero = true) :
    (Vector3.new xv yv zv).w.isZero = true ∧
    Vector3.zeros.w.isZero = true ∧
    Vector3.ones.w.isZero = true ∧
    (Vector3.cross a b).w.isZero = true ∧
    (Vector3.add a b).w.isZero = true ∧
    (Vector3.sub a b).w.isZero = true ∧
    (Vector3.neg a).w.isZero = true ∧
    (Vector3.set_x a xv).w.isZero = true ∧
    (Vector3.set_y a yv).w.isZero = true ∧
    (Vector3.set_z a zv).w.isZero = true ∧
    (s.isFinite = true → (Vector3.mul a s).w.isZero = true) ∧
    (s.isFinite = true → (Vector3.mul_assign a s).w.isZero = true) ∧
    ((F64.one.div s).isFinite = true → (Vector3.div a s).w.isZero = true) ∧
    (s.isZero = false → s.isNan = false → (Vector3.div_assign a s).w.isZero = true) := by
  refine ⟨rfl, rfl, rfl, rfl, add_isZero _ _ ha hb, sub_isZero _ _ ha hb, neg_isZero _ ha,
    ha, ha, ha, ?_, ?_, ?_, ?_⟩
  · intro hs; exact mul_isZero_left _ _ ha hs
  · intro hs; exact mul_isZero_left _ _ ha hs
  · intro hs; exact mul_isZero_left _ _ ha hs
  · intro h1 h2; exact div_isZero_left _ _ ha h1 h2

/-- Witness for C1: the padding lane is 0.0 after scaling (1,1,1) by the
finite scalar 2.0, after dividing by it, and after the divide-assign. -/
theorem claim1_padding_invariant_witness :
    (Vector3.mul (Vector3.new F64.one F64.one F64.one) F64.two).w.isZero = true ∧
    (Vector3.div (Vector3.new F64.one F64.one F64.one) F64.two).w.isZero = true ∧
    (Vector3.div_assign (Vector3.new F64.one F64.one F64.one) F64.two).w.isZero = true := by
  have h := claim1_padding_invariant F64.one F64.one F64.one
    (Vector3.new F64.one F64.one F64.one) (Vector3.new F64.one F64.one F64.one) F64.two
    (by decide) (by decide)
  exact ⟨h.2.2.2.2.2.2.2.2.2.2.1 (by decide),
    h.2.2.2.2.2.2.2.2.2.2.2.2.1 (by decide),
    h.2.2.2.2.2.2.2.2.2.2.2.2.2 (by decide) (by decide)⟩

/-- Counterexample to C1 as frozen: multiplying by the scalar NaN leaves NaN
in the padding lane, which does not compare equal to 0.0. -/
theorem claim1_padding_invariant_cex :
    (Vector3.mul Vector3.ones F64.nan).w.isZero = false ∧
    (Vector3.mul Vector3.ones F64.nan).w.isNan = true := by decide

/-- Claim C2, amended.  Compound assignment coincides with the non-assigning
operator for +=, -=, *= and /= on Vector2 and for +=, -=, *= on Vector3.
Vector3's /= divides every lane by s, while its / multiplies every lane by
the rounded reciprocal 1.0/s; the two operators disagree, for example at
a = (3,0,0), s = 5 (see the counterexample). -/
theorem claim2_compound_assign (a b : Vector2) (a3 b3 : Vector3) (s : F64) :
    Vector2.add_assign a b = Vector2.add a b ∧
    Vector2.sub_assign a b = Vector2.sub a b ∧
    Vector2.mul_assign a s = Vector2.mul a s ∧
    Vector2.div_assign a s = Vector2.div a s ∧
    Vector3.add_assign a3 b3 = Vector3.add a3 b3 ∧
    Vector3.sub_assign a3 b3 = Vector3.sub a3 b3 ∧
    Vector3.mul_assign a3 s = Vector3.mul a3 s ∧
    Vector3.div_assign a3 s = ⟨a3.x.div s, a3.y.div s, a3.z.div s, a3.w.div s⟩ ∧
    Vector3.div a3 s = Vector3.mul a3 (F64.one.div s) :=
  ⟨rfl, rfl, rfl, rfl, rfl, rfl, rfl, rfl, rfl⟩

/-- Counterexample to C2 as frozen: for a = (3,0,0) and s = 5.0 the x lane of
a /= s and of a / s differ (by one ulp), so /= is not semantically identical
to / on Vector3. -/
theorem claim2_compound_assign_cex :
    F64.beq
      ((Vector3.div_assign (Vector3.new (F64.fin false (3 * pow2 1074)) F64.zero F64.zero)
        (F64.fin false (5 * pow2 1074))).x)
      ((Vector3.div (Vector3.new (F64.fin false (3 * pow2 1074)) F64.zero F64.zero)
        (F64.fin false (5 * pow2 1074))).x) = false := by decide

/-- Claim C3, amended.  On Vector2, v / s is the exact lane-wise IEEE
quotient for every scalar s, including s = 0.0.  On Vector3, v / s computes
each lane as lane * (1.0/s); for s = 0.0 this still equals the lane-wise
IEEE division by zero (infinities and NaN), but for general s it can differ
from the quotient by one ulp (see the counterexample). -/
theorem claim3_scalar_div (v : Vector2) (s : F64) (v3 : Vector3) :
    (Vector2.div v s).x = v.x.div s ∧
    (Vector2.div v s).y = v.y.div s ∧
    (Vector3.div v3 F64.zero).x = v3.x.div F64.zero ∧
    (Vector3.div v3 F64.zero).y = v3.y.div F64.zero ∧
    (Vector3.div v3 F64.zero).z = v3.z.div F64.zero ∧
    (Vector3.div v3 F64.zero).w = v3.w.div F64.zero :=
  ⟨rfl, rfl, mul_inv_zero_eq_div_zero _, mul_inv_zero_eq_div_zero _,
   mul_inv_zero_eq_div_zero _, mul_inv_zero_eq_div_zero _⟩

/-- Counterexample to C3 as frozen: the x lane of (3,0,0) / 5.0 on Vector3 is
not the IEEE quotient 3.0/5.0 (the reciprocal multiplication is one ulp
off). -/
theorem claim3_scalar_div_cex :
    F64.beq
      ((Vector3.div (Vector3.new (F64.fin false (3 * pow2 1074)) F64.zero F64.zero)
        (F64.fin false (5 * pow2 1074))).x)
      ((F64.fin false (3 * pow2 1074)).div (F64.fin false (5 * pow2 1074))) = false := by decide

/-- Claim C4, amended.  The multiply-then-divide round trip (v * s) / s == v
is exact when the scalar is the power of two 2.0 and every active lane is
finite with magnitude at most 2 ^ 1022 (2 ^ 2096 units), on both Vector2 and
Vector3 (whose / multiplies by the reciprocal 1.0/2.0 = 0.5, also exact).  As
stated for every nonzero scalar the claim is false: the product can overflow
to infinity, which does not divide back (see the counterexample). -/
theorem claim4_roundtrip (v : Vector2) (v3 : Vector3)
    (h1 : v.wf) (h2 : v.x.isFinite = true) (h3 : v.y.isFinite = true)
    (h4 : v.x.absLe (pow2 2096)) (h5 : v.y.absLe (pow2 2096))
    (h6 : v3.wf) (h7 : v3.x.isFinite = true) (h8 : v3.y.isFinite = true)
    (h9 : v3.z.isFinite = true)
    (h10 : v3.x.absLe (pow2 2096)) (h11 : v3.y.absLe (pow2 2096))
    (h12 : v3.z.absLe (pow2 2096)) :
    Vector2.beqV (Vector2.div (Vector2.mul v F64.two) F64.two) v = true ∧
    Vector3.beqV (Vector3.div (Vector3.mul v3 F64.two) F64.two) v3 = true := by
  obtain ⟨hwx, hwy⟩ := h1
  obtain ⟨hw3x, hw3y, hw3z, -⟩ := h6
  constructor
  · have e1 := (lane_mul_two_div_two v.x hwx h2 h4).1
    have e2 := (lane_mul_two_div_two v.y hwy h3 h5).1
    simp only [Vector2.beqV, Vector2.div, Vector2.mul]
    rw [e1, e2, beq_refl_notNan _ (isFinite_notNan _ h2),
      beq_refl_notNan _ (isFinite_notNan _ h3)]
    rfl
  · have e1 := (lane_mul_two_div_two v3.x hw3x h7 h10).2
    have e2 := (lane_mul_two_div_two v3.y hw3y h8 h11).2
    have e3 := (lane_mul_two_div_two v3.z hw3z h9 h12).2
    simp only [Vector3.beqV, Vector3.div, Vector3.mul]
    rw [e1, e2, e3, beq_refl_notNan _ (isFinite_notNan _ h7),
      beq_refl_notNan _ (isFinite_notNan _ h8), beq_refl_notNan _ (isFinite_notNan _ h9)]
    rfl

/-- Witness for C4: the round trip with s = 2.0 at (3.0, 4.0) and at
(1.0, 1.0, 1.0). -/
theorem claim4_roundtrip_witness :
    Vector2.beqV
      (Vector2.div (Vector2.mul (Vector2.new (F64.fin false (3 * pow2 1074))
        (F64.fin false (4 * pow2 1074))) F64.two) F64.two)
      (Vector2.new (F64.fin false (3 * pow2 1074)) (F64.fin false (4 * pow2 1074))) = true ∧
    Vector3.beqV
      (Vector3.div (Vector3.mul (Vector3.new F64.one F64.one F64.one) F64.two) F64.two)
      (Vector3.new F64.one F64.one F64.one) = true :=
  claim4_roundtrip
    (Vector2.new (F64.fin false (3 * pow2 1074)) (F64.fin false (4 * pow2 1074)))
    (Vector3.new F64.one F64.one F64.one)
    ⟨wf_small false 3 1074 (by norm_num) (by norm_num),
     wf_small false 4 1074 (by norm_num) (by norm_num)⟩
    (by decide) (by decide)
    (show (3 * pow2 1074 : Nat) ≤ pow2 2096 by decide)
    (show (4 * pow2 1074 : Nat) ≤ pow2 2096 by decide)
    ⟨one_wf, one_wf, one_wf, zero_wf false⟩
    (by decide) (by decide) (by decide)
    (show (pow2 1074 : Nat) ≤ pow2 2096 by decide)
    (show (pow2 1074 : Nat) ≤ pow2 2096 by decide)
    (show (pow2 1074 : Nat) ≤ pow2 2096 by decide)

/-- Counterexample to C4 as frozen: with the nonzero scalar 2.0 and the
vector (2 ^ 1023, 0), the product overflows to infinity and dividing back
does not return the original vector. -/
theorem claim4_roundtrip_cex :
    F64.beq F64.two F64.zero = false ∧
    Vector2.beqV
      (Vector2.div (Vector2.mul (Vector2.new (F64.fin false (pow2 2097)) F64.zero) F64.two)
        F64.two)
      (Vector2.new (F64.fin false (pow2 2097)) F64.zero) = false := by decide

/-- Claim C5.  Vector2's dot product is literally the sum of the two lane
products.  Vector3's dot product folds all four lanes of the product register
in order (intrinsic simd_reduce_add_ordered with initial -0.0); under the
library's data-model invariant (the padding lanes compare equal to 0.0) the
result is numerically the same double as x1*x2 + y1*y2 + z1*z2 computed left
to right, where numerically means IEEE equality with NaN agreeing with NaN.
The `wf` hypotheses say the lanes are binary64 values, which is implicit in
quantifying over Rust f64 vectors. -/
theorem claim5_dot (a2 b2 : Vector2) (a b : Vector3) (ha : a.wf) (hb : b.wf)
    (haw : a.w.isZero = true) (hbw : b.w.isZero = true) :
    Vector2.dot a2 b2 = (a2.x.mul b2.x).add (a2.y.mul b2.y) ∧
    (Vector3.dot a b).numEq (((a.x.mul b.x).add (a.y.mul b.y)).add (a.z.mul b.z)) = true := by
  refine ⟨rfl, ?_⟩
  obtain ⟨hax, hay, haz, -⟩ := ha
  obtain ⟨hbx, hby, hbz, -⟩ := hb
  have hp0 : (a.x.mul b.x).wf := mul_wf _ _ hax hbx
  have hp1 : (a.y.mul b.y).wf := mul_wf _ _ hay hby
  have hp2 : (a.z.mul b.z).wf := mul_wf _ _ haz hbz
  have hp3 : (a.w.mul b.w).isZero = true := mul_isZero _ _ haw hbw
  have hS : (((a.x.mul b.x).add (a.y.mul b.y)).add (a.z.mul b.z)).wf :=
    add_wf _ _ (add_wf _ _ hp0 hp1) hp2
  rw [Vector3.dot, reduceSum4, add_negZero _ hp0]
  exact add_zero_numEq _ _ hS hp3

/-- Witness for C5 at (1,2,3) and (4,5,6). -/
theorem claim5_dot_witness :
    (Vector3.dot
      (Vector3.new (F64.fin false (1 * pow2 1074)) (F64.fin false (2 * pow2 1074))
        (F64.fin false (3 * pow2 1074)))
      (Vector3.new (F64.fin false (4 * pow2 1074)) (F64.fin false (5 * pow2 1074))
        (F64.fin false (6 * pow2 1074)))).numEq
      ((((F64.fin false (1 * pow2 1074)).mul (F64.fin false (4 * pow2 1074))).add
        ((F64.fin false (2 * pow2 1074)).mul (F64.fin false (5 * pow2 1074)))).add
        ((F64.fin false (3 * pow2 1074)).mul (F64.fin false (6 * pow2 1074)))) = true := by
  have h := claim5_dot Vector2.zeros Vector2.zeros
    (Vector3.new (F64.fin false (1 * pow2 1074)) (F64.fin false (2 * pow2 1074))
      (F64.fin false (3 * pow2 1074)))
    (Vector3.new (F64.fin false (4 * pow2 1074)) (F64.fin false (5 * pow2 1074))
      (F64.fin false (6 * pow2 1074)))
    ⟨wf_small false 1 1074 (by norm_num) (by norm_num),
     wf_small false 2 1074 (by norm_num) (by norm_num),
     wf_small false 3 1074 (by norm_num) (by norm_num), zero_wf false⟩
    ⟨wf_small false 4 1074 (by norm_num) (by norm_num),
     wf_small false 5 1074 (by norm_num) (by norm_num),
     wf_small false 6 1074 (by norm_num) (by norm_num), zero_wf false⟩
    (by decide) (by decide)
  exact h.2

/-- Claim C6.  normalize returns self * (1.0/magnitude) when the magnitude
does not compare equal to 0.0, and the all-zero vector when it does; in
particular normalize(zeros()) = zeros(), whose lanes are +0.0, not NaN or
infinity. -/
theorem claim6_normalize (v : Vector2) (v3 : Vector3) :
    ((Vector2.magnitude v).beq F64.zero = false →
      Vector2.normalize v = Vector2.mul v (F64.one.div (Vector2.magnitude v))) ∧
    ((Vector2.magnitude v).beq F64.zero = true → Vector2.normalize v = Vector2.zeros) ∧
    Vector2.normalize Vector2.zeros = Vector2.zeros ∧
    ((Vector3.magnitude v3).beq F64.zero = false →
      Vector3.normalize v3 = Vector3.mul v3 (F64.one.div (Vector3.magnitude v3))) ∧
    ((Vector3.magnitude v3).beq F64.zero = true → Vector3.normalize v3 = Vector3.zeros) ∧
    Vector3.normalize Vector3.zeros = Vector3.zeros := by
  refine ⟨?_, ?_, by decide, ?_, ?_, by decide⟩
  · intro h
    simp [Vector2.normalize, h]
  · intro h
    simp [Vector2.normalize, h]
  · intro h
    simp [Vector3.normalize, h]
  · intro h
    simp [Vector3.normalize, h]

/-- Witness for C6: the nonzero branch at (3.0, 4.0) (magnitude 5.0) and at
(3.0, 4.0, 0.0), and the zero branch at the zero vectors. -/
theorem claim6_normalize_witness :
    Vector2.normalize (Vector2.new (F64.fin false (3 * pow2 1074)) (F64.fin false (4 * pow2 1074)))
      = Vector2.mul (Vector2.new (F64.fin false (3 * pow2 1074)) (F64.fin false (4 * pow2 1074)))
        (F64.one.div (Vector2.magnitude
          (Vector2.new (F64.fin false (3 * pow2 1074)) (F64.fin false (4 * pow2 1074))))) ∧
    Vector2.normalize Vector2.zeros = Vector2.zeros ∧
    Vector3.normalize
        (Vector3.new (F64.fin false (3 * pow2 1074)) (F64.fin false (4 * pow2 1074)) F64.zero)
      = Vector3.mul
        (Vector3.new (F64.fin false (3 * pow2 1074)) (F64.fin false (4 * pow2 1074)) F64.zero)
        (F64.one.div (Vector3.magnitude
          (Vector3.new (F64.fin false (3 * pow2 1074)) (F64.fin false (4 * pow2 1074)) F64.zero))) ∧
    Vector3.normalize Vector3.zeros = Vector3.zeros := by
  have h1 := claim6_normalize
    (Vector2.new (F64.fin false (3 * pow2 1074)) (F64.fin false (4 * pow2 1074)))
    (Vector3.new (F64.fin false (3 * pow2 1074)) (F64.fin false (4 * pow2 1074)) F64.zero)
  have h2 := claim6_normalize Vector2.zeros Vector3.zeros
  exact ⟨h1.1 (by decide), h2.2.1 (by decide), h1.2.2.2.1 (by decide),
    h2.2.2.2.2.1 (by decide)⟩

/-- Claim C7, a code bug on the Vector2 side.  Vector3::ones satisfies the
claim: every active lane 1.0 and the padding lane +0.0, proved against the
faithful embedding.  Vector2::ones (vec2.rs line 28) passes a four-element
array to f64x2::from_array and therefore does not compile; the claim states
the evident intent (all active lanes 1.0, also asserted by the crate's unit
tests), so the Vector2 conjuncts here are proved against the spec-modelled
`Vector2.ones`, not against compiling source. -/
theorem claim7_ones :
    Vector3.ones.x = F64.one ∧ Vector3.ones.y = F64.one ∧
    Vector3.ones.z = F64.one ∧ Vector3.ones.w = F64.zero ∧
    Vector2.ones.x = F64.one ∧ Vector2.ones.y = F64.one :=
  ⟨rfl, rfl, rfl, rfl, rfl, rfl⟩

/-- Claim C8, amended.  Addition of finite vectors is commutative under the
library's == (IEEE addition is commutative, and finite + finite never gives
NaN).  Associativity, the other half of the claim as frozen, fails for
finite vectors because of rounding (and overflow): see the counterexample
with lanes 1.0 and 2 ^ (-53). -/
theorem claim8_add_comm (a b : Vector2) (a3 b3 : Vector3)
    (h1 : a.x.isFinite = true) (h2 : a.y.isFinite = true)
    (h3 : b.x.isFinite = true) (h4 : b.y.isFinite = true)
    (h5 : a3.x.isFinite = true) (h6 : a3.y.isFinite = true) (h7 : a3.z.isFinite = true)
    (h8 : b3.x.isFinite = true) (h9 : b3.y.isFinite = true) (h10 : b3.z.isFinite = true) :
    Vector2.beqV (Vector2.add a b) (Vector2.add b a) = true ∧
    Vector3.beqV (Vector3.add a3 b3) (Vector3.add b3 a3) = true := by
  constructor
  · simp only [Vector2.beqV, Vector2.add]
    rw [add_comm_struct a.x b.x, add_comm_struct a.y b.y,
      beq_refl_notNan _ (add_notNan _ _ h3 h1), beq_refl_notNan _ (add_notNan _ _ h4 h2)]
    rfl
  · simp only [Vector3.beqV, Vector3.add]
    rw [add_comm_struct a3.x b3.x, add_comm_struct a3.y b3.y, add_comm_struct a3.z b3.z,
      beq_refl_notNan _ (add_notNan _ _ h8 h5), beq_refl_notNan _ (add_notNan _ _ h9 h6),
      beq_refl_notNan _ (add_notNan _ _ h10 h7)]
    rfl

/-- Witness for C8: commutativity at (1,2)+(3,4) and (1,2,3)+(4,5,6). -/
theorem claim8_add_comm_witness :
    Vector2.beqV
      (Vector2.add (Vector2.new (F64.fin false (1 * pow2 1074)) (F64.fin false (2 * pow2 1074)))
        (Vector2.new (F64.fin false (3 * pow2 1074)) (F64.fin false (4 * pow2 1074))))
      (Vector2.add (Vector2.new (F64.fin false (3 * pow2 1074)) (F64.fin false (4 * pow2 1074)))
        (Vector2.new (F64.fin false (1 * pow2 1074)) (F64.fin false (2 * pow2 1074)))) = true ∧
    Vector3.beqV
      (Vector3.add
        (Vector3.new (F64.fin false (1 * pow2 1074)) (F64.fin false (2 * pow2 1074))
          (F64.fin false (3 * pow2 1074)))
        (Vector3.new (F64.fin false (4 * pow2 1074)) (F64.fin false (5 * pow2 1074))
          (F64.fin false (6 * pow2 1074))))
      (Vector3.add
        (Vector3.new (F64.fin false (4 * pow2 1074)) (F64.fin false (5 * pow2 1074))
          (F64.fin false (6 * pow2 1074)))
        (Vector3.new (F64.fin false (1 * pow2 1074)) (F64.fin false (2 * pow2 1074))
          (F64.fin false (3 * pow2 1074)))) = true :=
  claim8_add_comm
    (Vector2.new (F64.fin false (1 * pow2 1074)) (F64.fin false (2 * pow2 1074)))
    (Vector2.new (F64.fin false (3 * pow2 1074)) (F64.fin false (4 * pow2 1074)))
    (Vector3.new (F64.fin false (1 * pow2 1074)) (F64.fin false (2 * pow2 1074))
      (F64.fin false (3 * pow2 1074)))
    (Vector3.new (F64.fin false (4 * pow2 1074)) (F64.fin false (5 * pow2 1074))
      (F64.fin false (6 * pow2 1074)))
    (by decide) (by decide) (by decide) (by decide) (by decide)
    (by decide) (by decide) (by decide) (by decide) (by decide)

/-- Counterexample to C8 as frozen: with the finite vectors a = (1,0),
b = c = (2 ^ (-53), 0), the sum (a + b) + c is 1.0 (two ties to even) while
a + (b + c) is the next double above 1.0, so associativity fails. -/
theorem claim8_add_comm_cex :
    ((F64.fin false (pow2 1074)).isFinite = true ∧
      (F64.fin false (pow2 1021)).isFinite = true ∧ F64.zero.isFinite = true) ∧
    Vector2.beqV
      (Vector2.add
        (Vector2.add (Vector2.new (F64.fin false (pow2 1074)) F64.zero)
          (Vector2.new (F64.fin false (pow2 1021)) F64.zero))
        (Vector2.new (F64.fin false (pow2 1021)) F64.zero))
      (Vector2.add (Vector2.new (F64.fin false (pow2 1074)) F64.zero)
        (Vector2.add (Vector2.new (F64.fin false (pow2 1021)) F64.zero)
          (Vector2.new (F64.fin false (pow2 1021)) F64.zero))) = false := by decide

/-- Claim C9, amended.  a + (-a) compares equal to the zero vector under the
library's == whenever every active lane of a is finite (x + (-x) is exactly
+0.0 for every finite double x).  As stated for every vector the claim is
false: an infinite lane gives inf + (-inf) = NaN and a NaN lane propagates,
and NaN does not compare equal to 0.0 (see the counterexample). -/
theorem claim9_add_neg (a : Vector2) (a3 : Vector3)
    (h1 : a.x.isFinite = true) (h2 : a.y.isFinite = true)
    (h3 : a3.x.isFinite = true) (h4 : a3.y.isFinite = true) (h5 : a3.z.isFinite = true) :
    Vector2.beqV (Vector2.add a (Vector2.neg a)) Vector2.zeros = true ∧
    Vector3.beqV (Vector3.add a3 (Vector3.neg a3)) Vector3.zeros = true := by
  constructor
  · simp only [Vector2.beqV, Vector2.add, Vector2.neg, Vector2.zeros]
    rw [add_neg_self_beq_zero _ h1, add_neg_self_beq_zero _ h2]
    rfl
  · simp only [Vector3.beqV, Vector3.add, Vector3.neg, Vector3.zeros]
    rw [add_neg_self_beq_zero _ h3, add_neg_self_beq_zero _ h4, add_neg_self_beq_zero _ h5]
    rfl

/-- Witness for C9 at (1,2) and (1,2,3). -/
theorem claim9_add_neg_witness :
    Vector2.beqV
      (Vector2.add (Vector2.new (F64.fin false (1 * pow2 1074)) (F64.fin false (2 * pow2 1074)))
        (Vector2.neg (Vector2.new (F64.fin false (1 * pow2 1074))
          (F64.fin false (2 * pow2 1074)))))
      Vector2.zeros = true ∧
    Vector3.beqV
      (Vector3.add
        (Vector3.new (F64.fin false (1 * pow2 1074)) (F64.fin false (2 * pow2 1074))
          (F64.fin false (3 * pow2 1074)))
        (Vector3.neg (Vector3.new (F64.fin false (1 * pow2 1074))
          (F64.fin false (2 * pow2 1074)) (F64.fin false (3 * pow2 1074)))))
      Vector3.zeros = true :=
  claim9_add_neg
    (Vector2.new (F64.fin false (1 * pow2 1074)) (F64.fin false (2 * pow2 1074)))
    (Vector3.new (F64.fin false (1 * pow2 1074)) (F64.fin false (2 * pow2 1074))
      (F64.fin false (3 * pow2 1074)))
    (by decide) (by decide) (by decide) (by decide) (by decide)

/-- Counterexample to C9 as frozen: for a = (inf, 0), a + (-a) has a NaN x
lane and does not compare equal to zeros(). -/
theorem claim9_add_neg_cex :
    Vector2.beqV
      (Vector2.add (Vector2.new (F64.inf false) F64.zero)
        (Vector2.neg (Vector2.new (F64.inf false) F64.zero)))
      Vector2.zeros = false := by decide

/-- Claim C10.  A vector with a NaN active lane does not compare equal to
itself: PartialEq is the conjunction of exact IEEE lane comparisons, and
NaN == NaN is false. -/
theorem claim10_nan_neq (v : Vector2) (w : Vector3) :
    ((v.x.isNan || v.y.isNan) = true → Vector2.beqV v v = false) ∧
    ((w.x.isNan || w.y.isNan || w.z.isNan) = true → Vector3.beqV w w = false) := by
  constructor
  · intro h
    simp only [Bool.or_eq_true] at h
    rcases h with hx | hy
    · simp [Vector2.beqV, isNan_eq _ hx, beq_false_of_nan_left]
    · simp [Vector2.beqV, isNan_eq _ hy, beq_false_of_nan_left]
  · intro h
    simp only [Bool.or_eq_true] at h
    rcases h with (hx | hy) | hz
    · simp [Vector3.beqV, isNan_eq _ hx, beq_false_of_nan_left]
    · simp [Vector3.beqV, isNan_eq _ hy, beq_false_of_nan_left]
    · simp [Vector3.beqV, isNan_eq _ hz, beq_false_of_nan_left]

/-- Witness for C10 at (NaN, 0) and (NaN, 0, 0). -/
theorem claim10_nan_neq_witness :
    Vector2.beqV (Vector2.new F64.nan F64.zero) (Vector2.new F64.nan F64.zero) = false ∧
    Vector3.beqV (Vector3.new F64.nan F64.zero F64.zero)
      (Vector3.new F64.nan F64.zero F64.zero) = false := by
  have h := claim10_nan_neq (Vector2.new F64.nan F64.zero)
    (Vector3.new F64.nan F64.zero F64.zero)
  exact ⟨h.1 (by decide), h.2 (by decide)⟩


end FastVec
